import Mathlib

/-
Verification development for the multi-agent orchestration engine of
small-beans-foundry (backend/app/services/multi_agent.py, with the
twin sanitizer in backend/app/services/agent.py).

Python strings are modelled as `List Char` (sequences of code points);
machine-level details that no statement depends on (uuid generation,
wall-clock timestamps, telemetry counters, logging) are omitted or
passed as explicit parameters.
-/

namespace SmallBeans

/-! ## Character helpers

`bs`, `dq`, `sq` are the backslash, double-quote and single-quote
characters, written via their code points. -/

def bs : Char := Char.ofNat 92

def dq : Char := Char.ofNat 34

def sq : Char := Char.ofNat 39

/-- Python `str.isspace` restricted to the ASCII whitespace characters
(space, tab, newline, carriage return, vertical tab, form feed); the
sanitizer's `strip`/`split` only ever see these in this codebase. -/
def pyIsSpace (c : Char) : Bool :=
  c = ' ' || c = '\t' || c = '\n' || c = '\r' || c = '\x0b' || c = '\x0c'

/-- First element of a character list, compared against a character:
models Python `s.startswith(c)` for a one-character c. -/
def startsWithChar (l : List Char) (c : Char) : Bool :=
  l.head? = some c

/-- Last element of a character list: models Python `s.endswith(c)`. -/
def endsWithChar (l : List Char) (c : Char) : Bool :=
  l.getLast? = some c

/-- Python `s.strip()`: drop whitespace from both ends. -/
def pyStrip (l : List Char) : List Char :=
  ((l.dropWhile pyIsSpace).reverse.dropWhile pyIsSpace).reverse

/-- Accumulator pass behind `pyWords`: splits a character list into
maximal whitespace-free words, as Python `s.split()` does. -/
def pyWordsAux (acc : List Char) : List Char → List (List Char)
  | [] => if acc = [] then [] else [acc.reverse]
  | c :: rest =>
    if pyIsSpace c then
      if acc = [] then pyWordsAux [] rest else acc.reverse :: pyWordsAux [] rest
    else
      pyWordsAux (c :: acc) rest

/-- Python `s.split()` (no separator argument): whitespace-run split,
empty words discarded. -/
def pyWords (l : List Char) : List (List Char) :=
  pyWordsAux [] l

/-- Python `' '.join(ws)`: interleave single spaces between the words. -/
def joinSp : List (List Char) → List Char
  | [] => []
  | w :: ws =>
    match ws with
    | [] => w
    | _ :: _ => w ++ ' ' :: joinSp ws

/-- Python `' '.join(s.split())`: collapse whitespace runs to single
spaces and trim the ends. -/
def collapseWs (l : List Char) : List Char :=
  joinSp (pyWords l)

/-- Python `s.replace(ab, r)` for a two-character pattern `a b` and a
one-character replacement `r`: left-to-right, non-overlapping. Every
pattern fed to it by the sanitizer has exactly this shape. -/
def replacePair (a b r : Char) : List Char → List Char
  | [] => []
  | [c] => [c]
  | c :: d :: rest =>
    if c = a && d = b then r :: replacePair a b r rest
    else c :: replacePair a b r (d :: rest)

/-- The manual escape handling of `_clean_response_content`: the chain of
six `str.replace` calls, in source order. -/
def manualUnescape (l : List Char) : List Char :=
  replacePair bs bs bs
    (replacePair bs sq sq
      (replacePair bs dq dq
        (replacePair bs 'r' '\r'
          (replacePair bs 't' '\t'
            (replacePair bs 'n' '\n' l)))))

/-! ## json.loads on a string literal

`_clean_response_content` calls `json.loads(content)` only when
`content` starts and ends with a double quote, so the parsed JSON value
can only be a single string literal. `none` models the
`json.JSONDecodeError` that the caller catches. A `\uXXXX` escape that
is a lone surrogate half decodes in Python to a string that has no
counterpart as a sequence of unicode scalar values; it is mapped to
`none` here, which no theorem below depends on. -/

def hexVal (c : Char) : Option Nat :=
  if '0' ≤ c ∧ c ≤ '9' then some (c.toNat - 48)
  else if 'a' ≤ c ∧ c ≤ 'f' then some (c.toNat - 87)
  else if 'A' ≤ c ∧ c ≤ 'F' then some (c.toNat - 55)
  else none

def hex4 (h1 h2 h3 h4 : Char) : Option Nat := do
  let a ← hexVal h1
  let b ← hexVal h2
  let c ← hexVal h3
  let d ← hexVal h4
  pure (((a * 16 + b) * 16 + c) * 16 + d)

/-- JSON whitespace allowed after the closing quote of the literal. -/
def jsonWs (c : Char) : Bool :=
  c = ' ' || c = '\t' || c = '\n' || c = '\r'

/-- Decode the body of a JSON string literal (everything after the
opening quote): returns the decoded characters, or `none` on any
malformed escape, unescaped control character, missing closing quote,
or non-whitespace trailing input. -/
def jsonStringBody : List Char → Option (List Char)
  | [] => none
  | c :: rest =>
    if c = dq then
      if rest.all jsonWs then some [] else none
    else if c = bs then
      match rest with
      | [] => none
      | e :: rest2 =>
        if e = 'u' then
          match rest2 with
          | h1 :: h2 :: h3 :: h4 :: rest3 =>
            match hex4 h1 h2 h3 h4 with
            | none => none
            | some n =>
              if n < 0xD800 ∨ 0xDFFF < n then
                (jsonStringBody rest3).map (Char.ofNat n :: ·)
              else if n ≤ 0xDBFF then
                match rest3 with
                | b1 :: u1 :: g1 :: g2 :: g3 :: g4 :: rest4 =>
                  if b1 = bs ∧ u1 = 'u' then
                    match hex4 g1 g2 g3 g4 with
                    | none => none
                    | some m =>
                      if 0xDC00 ≤ m ∧ m ≤ 0xDFFF then
                        (jsonStringBody rest4).map
                          (Char.ofNat (0x10000 + (n - 0xD800) * 0x400 + (m - 0xDC00)) :: ·)
                      else none
                  else none
                | _ => none
              else none
          | _ => none
        else if e = dq then (jsonStringBody rest2).map (dq :: ·)
        else if e = bs then (jsonStringBody rest2).map (bs :: ·)
        else if e = '/' then (jsonStringBody rest2).map ('/' :: ·)
        else if e = 'b' then (jsonStringBody rest2).map ('\x08' :: ·)
        else if e = 'f' then (jsonStringBody rest2).map ('\x0c' :: ·)
        else if e = 'n' then (jsonStringBody rest2).map ('\n' :: ·)
        else if e = 'r' then (jsonStringBody rest2).map ('\r' :: ·)
        else if e = 't' then (jsonStringBody rest2).map ('\t' :: ·)
        else none
    else if c.toNat < 32 then none
    else (jsonStringBody rest).map (c :: ·)

/-- Python `json.loads` restricted to the call sites in the sanitizer,
where the input starts with a double quote and hence must be a single
JSON string literal. -/
def jsonLoadsStringLit : List Char → Option (List Char)
  | c :: rest => if c = dq then jsonStringBody rest else none
  | [] => none

/-! ## The Response Sanitizer -/

def apologyText : List Char :=
  "I apologize, but I couldn't generate a response.".toList

def tmWrapper : List Char := "TextMessage(".toList

/-- Step (a) of `_clean_response_content`: strip a literal
`TextMessage(` wrapper (12 characters) and a trailing `)`. -/
def stripWrapperStage (content : List Char) : List Char :=
  if tmWrapper.isPrefixOf content then
    let t := content.drop 12
    if endsWithChar t ')' then t.dropLast else t
  else content

/-- Step (b): the escape-handling `try` block. `json.loads` is only
attempted when the text starts and ends with a double quote; the manual
replace chain runs only when that attempt raises. -/
def unescapeStage (c1 : List Char) : List Char :=
  if startsWithChar c1 dq && endsWithChar c1 dq then
    match jsonLoadsStringLit c1 with
    | some s => s
    | none => manualUnescape c1
  else c1

/-- Step (c): strip one layer of enclosing matching quotes
(`content[1:-1]`). -/
def stripQuotesStage (c3 : List Char) : List Char :=
  if (startsWithChar c3 dq && endsWithChar c3 dq) ||
     (startsWithChar c3 sq && endsWithChar c3 sq) then
    (c3.drop 1).dropLast
  else c3

/-- The sanitizing pipeline applied to a non-empty input: wrapper
strip, escape handling, `strip()`, quote-layer strip, whitespace
collapse. -/
def cleanCore (content : List Char) : List Char :=
  collapseWs (stripQuotesStage (pyStrip (unescapeStage (stripWrapperStage content))))

/-- `_clean_response_content` from multi_agent.py (and, token for token,
agent.py): the staged pipeline with the empty-input and empty-result
guards returning the fixed apology. -/
def cleanResponseContent (content : List Char) : List Char :=
  if content = [] then apologyText
  else if cleanCore content = [] then apologyText
  else cleanCore content

/-! ## Message protocol

The autogen message types used by multi_agent.py, restricted to the
fields the orchestration logic reads. `ChatContent` is the
`str | List[FunctionCall]` union held by an `AssistantMessage`. -/

structure FunctionCall where
  id : String
  name : String
  arguments : String
deriving DecidableEq, Repr

structure FunctionExecutionResult where
  call_id : String
  content : String
  is_error : Bool
  name : String
deriving DecidableEq, Repr

inductive ChatContent where
  | text (s : String)
  | calls (cs : List FunctionCall)
deriving DecidableEq, Repr

/-- `LLMMessage`: the union of SystemMessage, UserMessage,
AssistantMessage and FunctionExecutionResultMessage. Only user and
assistant messages carry a `source` attribute. -/
inductive LLMMessage where
  | system (content : String)
  | user (content : String) (source : String)
  | assistant (content : ChatContent) (source : String)
  | results (content : List FunctionExecutionResult)
deriving DecidableEq, Repr

structure UserTask where
  context : List LLMMessage
  session_id : String
deriving DecidableEq, Repr

structure AgentResponse where
  reply_to_topic_type : String
  context : List LLMMessage
  session_id : String
deriving DecidableEq, Repr

/-- A message published on the bus, with the `TopicId(topic_type,
source)` it is addressed to. -/
inductive BusMessage where
  | userTask (t : UserTask)
  | agentResponse (r : AgentResponse)
deriving DecidableEq, Repr

structure Published where
  topicType : String
  source : String
  message : BusMessage
deriving DecidableEq, Repr

/-- One response of the completion client: plain text, or a list of
tool calls (the `while` guard in `_process_task_internal` tests exactly
whether the content is a list whose members are all FunctionCall). -/
inductive ModelResult where
  | text (s : String)
  | calls (cs : List FunctionCall)
deriving DecidableEq, Repr

/-- The per-agent configuration fixed at registration time: the direct
and delegate tool registries (name to invocable; the invocable stands
for `run_json` plus `return_value_as_string`, consuming the call's
argument payload), the topic the agent serves, and its name. Argument
JSON decoding and keyword binding are part of the external FunctionTool
adapter and are absorbed into the invocable. -/
structure AgentConfig where
  tools : List (String × (String → String))
  delegate_tools : List (String × (String → String))
  agent_topic_type : String
  agent_name : String

/-- Dictionary lookup in the per-agent registries (registered tool
names are pairwise distinct, so first match equals Python dict lookup). -/
def toolLookup (reg : List (String × (String → String))) (n : String) :
    Option (String → String) :=
  match reg with
  | [] => none
  | (k, f) :: rest => if k = n then some f else toolLookup rest n

/-- The `for call in llm_result.content` loop body of
`_process_task_internal`: partition the calls of one model turn into
direct-tool results and delegate targets, in order; a name in neither
registry raises `ValueError(f"Unknown tool: ...")`, modelled as
`Except.error`, which aborts the task before anything is published. -/
def processCalls (cfg : AgentConfig) (context : List LLMMessage) (sid : String) :
    List FunctionCall →
    Except String (List FunctionExecutionResult × List (String × UserTask))
  | [] => Except.ok ([], [])
  | call :: more =>
    match toolLookup cfg.tools call.name with
    | some tool =>
      let result_as_str := tool call.arguments
      match processCalls cfg context sid more with
      | Except.error e => Except.error e
      | Except.ok (rs, ds) =>
        Except.ok (⟨call.id, result_as_str, false, call.name⟩ :: rs, ds)
    | none =>
      match toolLookup cfg.delegate_tools call.name with
      | some dtool =>
        let topic_type := dtool call.arguments
        let delegate_messages := context ++
          [LLMMessage.assistant (ChatContent.calls [call]) cfg.agent_name,
           LLMMessage.results
             [⟨call.id,
               "Transferred to " ++ topic_type ++ ". Please continue the conversation.",
               false, call.name⟩]]
        match processCalls cfg context sid more with
        | Except.error e => Except.error e
        | Except.ok (rs, ds) =>
          Except.ok (rs, (topic_type, ⟨delegate_messages, sid⟩) :: ds)
      | none => Except.error ("Unknown tool: " ++ call.name)

/-- `_process_task_internal`: the LLM-call / tool-loop / delegate-or-
finish state machine. The completion client is modelled by the list
`oracle` of its successive responses (one entry consumed per `create`
call). A successful run returns the messages published on the bus: the
delegate `UserTask`s on a handoff, or the terminal `AgentResponse`
addressed to the coordinator topic. `Except.error` models an exception
escaping the handler (unknown tool, or a model turn whose call list is
empty, on which the Python `while` loop never progresses), under which
nothing is published. -/
def processTaskInternal (cfg : AgentConfig) :
    List ModelResult → List LLMMessage → String → Except String (List Published)
  | [], _, _ => Except.error "completion client gave no response"
  | ModelResult.text s :: _, context, sid =>
    Except.ok
      [⟨"MultiAgentCoordinator", sid,
        BusMessage.agentResponse
          ⟨cfg.agent_topic_type,
           context ++ [LLMMessage.assistant (ChatContent.text s) cfg.agent_name],
           sid⟩⟩]
  | ModelResult.calls cs :: rest, context, sid =>
    match processCalls cfg context sid cs with
    | Except.error e => Except.error e
    | Except.ok (tool_call_results, delegate_targets) =>
      if delegate_targets ≠ [] then
        Except.ok (delegate_targets.map
          (fun p => ⟨p.1, sid, BusMessage.userTask p.2⟩))
      else if tool_call_results ≠ [] then
        processTaskInternal cfg rest
          (context ++
            [LLMMessage.assistant (ChatContent.calls cs) cfg.agent_name,
             LLMMessage.results tool_call_results])
          sid
      else Except.error "empty tool-call list: the loop does not progress"

/-! ## The registered tools

`web_search` is the mock search of multi_agent.py (keyword table in
insertion order, `default` last); `fetch_url_content` the mock fetch;
the transfer tools return the destination topic names. -/

def webSearchDefault (query : String) : String :=
  "Search results for '" ++ query ++ "': Found relevant information about " ++
    query ++ ". This includes recent developments, key concepts, and practical applications in the field."

def mockResults : List (String × String) :=
  [("ai", "Artificial Intelligence (AI) is a broad field of computer science focused on creating intelligent machines capable of performing tasks that typically require human intelligence."),
   ("machine learning", "Machine learning is a subset of AI that enables computers to learn and improve from experience without being explicitly programmed."),
   ("openai", "OpenAI is an AI research laboratory consisting of the for-profit corporation OpenAI LP and its parent company, the non-profit OpenAI Inc."),
   ("autogen", "AutoGen is a framework that enables the development of LLM applications using multiple agents that can converse with each other to solve tasks."),
   ("python", "Python is a high-level, interpreted programming language known for its simplicity and readability, widely used in AI and machine learning.")]

/-- Contiguous substring test: Python `pat in l` on strings. -/
def hasSubList (pat : List Char) : List Char → Bool
  | [] => pat.isEmpty
  | c :: rest => pat.isPrefixOf (c :: rest) || hasSubList pat rest

/-- Python `keyword in query_lower`: contiguous substring test against
the already lower-cased query. -/
def kwHit (ql keyword : String) : Bool :=
  hasSubList keyword.toList ql.toList

/-- The mock search: iterate the keyword table in insertion order
(`"default"` is itself a checked keyword, mapping to the default
result), falling back to the default result when nothing matches. The
keywords are ASCII, so ASCII lower-casing is faithful here. -/
def web_search (query : String) : String :=
  let ql := query.toLower
  match (mockResults ++ [("default", webSearchDefault query)]).find?
      (fun p => kwHit ql p.1) with
  | some p => p.2
  | none => webSearchDefault query

def fetch_url_content (url : String) : String :=
  "Content from " ++ url ++ ": This is sample content that would be extracted from the webpage. In a real implementation, this would contain the actual text content from the specified URL."

def transfer_to_summarizer : String := "SummarizerAgent"

def transfer_to_researcher : String := "ResearcherAgent"

/-- The Researcher agent configuration registered in
`_initialize_runtime` (the invocables take the raw argument payload;
for `web_search` the payload stands for the bound `query`). -/
def researcherCfg : AgentConfig :=
  { tools := [("web_search", fun q => web_search q),
              ("fetch_url_content", fun u => fetch_url_content u)]
    delegate_tools := [("transfer_to_summarizer", fun _ => transfer_to_summarizer)]
    agent_topic_type := "ResearcherAgent"
    agent_name := "ResearcherAgent" }

/-- The Summarizer agent configuration registered in
`_initialize_runtime`. -/
def summarizerCfg : AgentConfig :=
  { tools := []
    delegate_tools := [("transfer_to_researcher", fun _ => transfer_to_researcher)]
    agent_topic_type := "SummarizerAgent"
    agent_name := "SummarizerAgent" }

/-! ## The Session Response Store

`MultiAgentService._session_responses : Dict[str, List[Message]]`,
modelled as an association list without duplicate keys. A stored
`Message` is kept to the fields the orchestration logic reads (`role`,
`content`); the auto-generated `id` (uuid4) and `timestamp`
(datetime.now) are external nondeterminism that nothing below reads. -/

structure Message where
  role : String
  content : String
deriving DecidableEq, Repr

abbrev Store := List (String × List Message)

def storeLookup (st : Store) (sid : String) : Option (List Message) :=
  match st with
  | [] => none
  | (k, v) :: rest => if k = sid then some v else storeLookup rest sid

/-- Python dict assignment `st[sid] = v`. -/
def storeSet (st : Store) (sid : String) (v : List Message) : Store :=
  match st with
  | [] => [(sid, v)]
  | (k, w) :: rest => if k = sid then (k, v) :: rest else (k, w) :: storeSet rest sid v

/-- Python `del st[sid]`. -/
def storeErase (st : Store) (sid : String) : Store :=
  match st with
  | [] => []
  | (k, w) :: rest => if k = sid then rest else (k, w) :: storeErase rest sid

/-- The coordinator's store write:
`if sid not in st: st[sid] = []` followed by `st[sid].append(m)`. -/
def storeAppend (st : Store) (sid : String) (m : Message) : Store :=
  match storeLookup st sid with
  | none => storeSet st sid [m]
  | some v => storeSet st sid (v ++ [m])

/-! ## Orchestration Service: the wait loop of generate_response

The service polls `self._session_responses` every `wait_interval`
(0.1 s) until the entry is non-empty or `total_waited` reaches
`max_wait_time` (30 s). Time is measured in poll ticks of 0.1 s, so the
ceiling is 300 ticks; the concurrent coordinator writes are modelled by
the store snapshot `storeAt n` seen at poll `n` (between a poll and the
read/delete that follows a successful poll there is no `await`, hence
no interleaving, so both happen against the same snapshot). -/

def maxWaitTicks : Nat := 300

def storeNonempty (st : Store) (sid : String) : Bool :=
  match storeLookup st sid with
  | some (_ :: _) => true
  | _ => false

/-- The `while session_id not in ... or not ...` loop: returns the poll
tick at which a non-empty entry was first seen, or `none` on timeout.
`fuel` only drives the recursion; called with `fuel = maxWaitTicks` and
`w = 0`, the `w ≥ maxWaitTicks` guard fires before fuel can run out,
mirroring the `total_waited >= max_wait_time` check of the source. -/
def pollWait (storeAt : Nat → Store) (sid : String) : Nat → Nat → Option Nat
  | fuel, w =>
    if storeNonempty (storeAt w) sid then some w
    else if maxWaitTicks ≤ w then none
    else
      match fuel with
      | 0 => none
      | f + 1 => pollWait storeAt sid f (w + 1)

def timeoutMessage : String :=
  "I'm sorry, but the multi-agent system is taking longer than expected. Please try again."

def multiAgentApology : String :=
  "I apologize, but I couldn't generate a response using the multi-agent system."

/-- Lines 515-538 of multi_agent.py: wait for the coordinator, then on
success read the last stored message, delete the session entry and
return its text; on timeout return the fixed timeout message and leave
the store untouched. The returned pair is (text, final store). -/
def generateResponseWait (storeAt : Nat → Store) (sid : String) : String × Store :=
  match pollWait storeAt sid maxWaitTicks 0 with
  | none => (timeoutMessage, storeAt maxWaitTicks)
  | some n =>
    let st := storeAt n
    match storeLookup st sid with
    | some (m :: ms) => (((m :: ms).getLast (by simp)).content, storeErase st sid)
    | _ => (multiAgentApology, st)

/-! ## Coordinator -/

/-- Python truthiness of the extracted `msg.content`, which is either a
string or a list of pending FunctionCalls. -/
def contentTruthy : ChatContent → Bool
  | ChatContent.text s => s ≠ ""
  | ChatContent.calls cs => cs ≠ []

/-- The `source` attribute when present (`hasattr(msg, 'source')`). -/
def msgSource : LLMMessage → Option String
  | LLMMessage.user _ src => some src
  | LLMMessage.assistant _ src => some src
  | _ => none

/-- `msg.content` of a message that has a `source` attribute. -/
def msgContent : LLMMessage → ChatContent
  | LLMMessage.user c _ => ChatContent.text c
  | LLMMessage.assistant c _ => c
  | LLMMessage.system c => ChatContent.text c
  | LLMMessage.results _ => ChatContent.text ""

def knownAgentNames : List String := ["ResearcherAgent", "SummarizerAgent"]

def hasKnownSource (m : LLMMessage) : Bool :=
  match msgSource m with
  | some src => knownAgentNames.contains src
  | none => false

/-- The `for msg in reversed(message.context)` scan: content of the
last message carrying a known `source`, with `""` as the loop's initial
value when no such message exists. -/
def findFinalResponse : List LLMMessage → ChatContent
  | [] => ChatContent.text ""
  | ms =>
    match (ms.reverse).find? hasKnownSource with
    | some m => msgContent m
    | none => ChatContent.text ""

def noProperResponse : String :=
  "I apologize, but I couldn't generate a proper response."

def coordErrorLead : String :=
  "I encountered an error processing the response: "

/-- `MultiAgentCoordinator.handle_agent_response`. The extracted
content is falsiness-checked and defaulted; building
`Message(role="assistant", content=final_response)` raises a pydantic
ValidationError when the content is a (non-empty, hence truthy) list of
FunctionCalls rather than a string, which the `except` arm converts to
an error-text message appended to the same session's entry. `errText`
stands for the external rendering `str(e)` of that exception. -/
def handleAgentResponse (errText : String) (st : Store) (resp : AgentResponse) : Store :=
  let fr := findFinalResponse resp.context
  let fr := if contentTruthy fr then fr else ChatContent.text noProperResponse
  match fr with
  | ChatContent.text s => storeAppend st resp.session_id ⟨"assistant", s⟩
  | ChatContent.calls _ =>
    storeAppend st resp.session_id ⟨"assistant", coordErrorLead ++ errText⟩

/-! ## Delegation chains

`Hop t p`: some agent configuration, fed some sequence of completion
responses, processes task `t` and publishes `p` among its output.
`Chain t r`: a delegation chain from task `t` ending in the terminal
`AgentResponse` `r`. -/

inductive Hop : UserTask → Published → Prop where
  | mk (cfg : AgentConfig) (oracle : List ModelResult) (t : UserTask)
      (pubs : List Published) (p : Published)
      (hrun : processTaskInternal cfg oracle t.context t.session_id = Except.ok pubs)
      (hmem : p ∈ pubs) : Hop t p

inductive Chain : UserTask → AgentResponse → Prop where
  | final (t : UserTask) (topic src : String) (r : AgentResponse)
      (h : Hop t ⟨topic, src, BusMessage.agentResponse r⟩) : Chain t r
  | step (t : UserTask) (topic src : String) (t' : UserTask) (r : AgentResponse)
      (h : Hop t ⟨topic, src, BusMessage.userTask t'⟩) (hc : Chain t' r) : Chain t r

/-! ## Lemmas: the whitespace collapse is a projection

`collapseWs` produces a space-separated join of non-empty,
whitespace-free words; re-splitting such a join recovers the words, so
`collapseWs` and `pyStrip` leave its output unchanged. -/

def goodWords (ws : List (List Char)) : Prop :=
  ∀ w ∈ ws, w ≠ [] ∧ ∀ c ∈ w, pyIsSpace c = false

lemma pyWordsAux_nil (acc : List Char) :
    pyWordsAux acc [] = if acc = [] then [] else [acc.reverse] := rfl

lemma pyWordsAux_cons (acc : List Char) (c : Char) (l : List Char) :
    pyWordsAux acc (c :: l) =
      if pyIsSpace c then
        if acc = [] then pyWordsAux [] l else acc.reverse :: pyWordsAux [] l
      else pyWordsAux (c :: acc) l := rfl

lemma pyWordsAux_goodWords (l : List Char) :
    ∀ acc : List Char, (∀ c ∈ acc, pyIsSpace c = false) →
      goodWords (pyWordsAux acc l) := by
  induction l with
  | nil =>
    intro acc hacc
    rw [pyWordsAux_nil]
    by_cases h0 : acc = []
    · simp [h0, goodWords]
    · rw [if_neg h0]
      intro w hw
      simp only [List.mem_singleton] at hw
      subst hw
      exact ⟨by simpa using h0, fun c hc => hacc c (List.mem_reverse.mp hc)⟩
  | cons c rest ih =>
    intro acc hacc
    rw [pyWordsAux_cons]
    by_cases hsp : pyIsSpace c
    · rw [if_pos hsp]
      by_cases h0 : acc = []
      · rw [if_pos h0]; exact ih [] (by simp)
      · rw [if_neg h0]
        intro w hw
        rcases List.mem_cons.mp hw with hw | hw
        · subst hw
          exact ⟨by simpa using h0, fun d hd => hacc d (List.mem_reverse.mp hd)⟩
        · exact ih [] (by simp) w hw
    · rw [if_neg hsp]
      refine ih (c :: acc) ?_
      intro d hd
      rcases List.mem_cons.mp hd with hd | hd
      · subst hd; simpa using hsp
      · exact hacc d hd

lemma pyWordsAux_append (w : List Char) (hw : ∀ c ∈ w, pyIsSpace c = false) :
    ∀ acc l, pyWordsAux acc (w ++ l) = pyWordsAux (w.reverse ++ acc) l := by
  induction w with
  | nil => intro acc l; simp
  | cons c v ih =>
    intro acc l
    have hc : pyIsSpace c = false := hw c (List.mem_cons_self c v)
    have hv : ∀ d ∈ v, pyIsSpace d = false := fun d hd => hw d (List.mem_cons_of_mem c hd)
    rw [List.cons_append, pyWordsAux_cons, if_neg (by simp [hc]), ih hv (c :: acc) l,
      List.reverse_cons, List.append_assoc, List.singleton_append]

lemma pyWords_joinSp (ws : List (List Char)) (h : goodWords ws) :
    pyWords (joinSp ws) = ws := by
  induction ws with
  | nil => simp [pyWords, joinSp, pyWordsAux]
  | cons w ws ih =>
    have hw : w ≠ [] ∧ ∀ c ∈ w, pyIsSpace c = false := h w (List.mem_cons_self w ws)
    have hws : goodWords ws := fun v hv => h v (List.mem_cons_of_mem w hv)
    cases ws with
    | nil =>
      show pyWordsAux [] (joinSp [w]) = [w]
      have hj : joinSp [w] = w := rfl
      rw [hj, ← List.append_nil w, pyWordsAux_append w hw.2 [] [],
        List.append_nil, List.append_nil, pyWordsAux_nil]
      rw [if_neg (by simpa using hw.1)]
      simp
    | cons v vs =>
      show pyWordsAux [] (joinSp (w :: v :: vs)) = w :: v :: vs
      have hj : joinSp (w :: v :: vs) = w ++ ' ' :: joinSp (v :: vs) := rfl
      rw [hj, pyWordsAux_append w hw.2 [] (' ' :: joinSp (v :: vs)),
        List.append_nil, pyWordsAux_cons, if_pos (by decide : pyIsSpace ' ' = true)]
      rw [if_neg (by simpa using hw.1)]
      have : pyWordsAux [] (joinSp (v :: vs)) = v :: vs := ih hws
      rw [this, List.reverse_reverse]

lemma pyWords_goodWords (l : List Char) : goodWords (pyWords l) :=
  pyWordsAux_goodWords l [] (by simp)

lemma collapseWs_idem (l : List Char) : collapseWs (collapseWs l) = collapseWs l := by
  unfold collapseWs
  rw [show pyWords (joinSp (pyWords l)) = pyWords l from
    pyWords_joinSp (pyWords l) (pyWords_goodWords l)]

lemma mem_of_getLast?_some {α : Type} {l : List α} {a : α}
    (h : l.getLast? = some a) : a ∈ l := by
  induction l with
  | nil => simp at h
  | cons b t ih =>
    cases t with
    | nil => simp_all
    | cons c t' =>
      rw [List.getLast?_cons_cons] at h
      exact List.mem_cons_of_mem b (ih h)

lemma joinSp_ne_nil (ws : List (List Char)) (h : goodWords ws) (hne : ws ≠ []) :
    joinSp ws ≠ [] := by
  match ws with
  | w :: ws =>
    have hw := h w (List.mem_cons_self w ws)
    cases ws with
    | nil => exact hw.1
    | cons v vs => simp [joinSp]

lemma joinSp_head_nonspace (ws : List (List Char)) (h : goodWords ws) :
    ∀ c, (joinSp ws).head? = some c → pyIsSpace c = false := by
  intro c hc
  match ws with
  | [] => simp [joinSp] at hc
  | w :: ws =>
    have hw := h w (List.mem_cons_self w ws)
    obtain ⟨a, w', rfl⟩ := List.exists_cons_of_ne_nil hw.1
    have hha : (joinSp ((a :: w') :: ws)).head? = some a := by
      cases ws with
      | nil => rfl
      | cons v vs => rfl
    rw [hha] at hc
    have hca : c = a := by injection hc.symm
    subst hca
    exact hw.2 c (List.mem_cons_self c w')

lemma joinSp_getLast_nonspace (ws : List (List Char)) (h : goodWords ws) :
    ∀ c, (joinSp ws).getLast? = some c → pyIsSpace c = false := by
  induction ws with
  | nil => intro c hc; simp [joinSp] at hc
  | cons w ws ih =>
    intro c hc
    have hw := h w (List.mem_cons_self w ws)
    have hws : goodWords ws := fun v hv => h v (List.mem_cons_of_mem w hv)
    cases ws with
    | nil =>
      have hcw : c ∈ w := mem_of_getLast?_some (by simpa [joinSp] using hc)
      exact hw.2 c hcw
    | cons v vs =>
      have hj : joinSp (w :: v :: vs) = w ++ ' ' :: joinSp (v :: vs) := rfl
      rw [hj] at hc
      have hjne : joinSp (v :: vs) ≠ [] := joinSp_ne_nil (v :: vs) hws (by simp)
      obtain ⟨b, x, hbx⟩ := List.exists_cons_of_ne_nil hjne
      rw [hbx, List.getLast?_append_cons, List.getLast?_cons_cons] at hc
      exact ih hws c (by rw [hbx]; exact hc)

lemma dropWhile_eq_self_of_head {p : Char → Bool} {m : List Char}
    (h : ∀ c, m.head? = some c → p c = false) : m.dropWhile p = m := by
  cases m with
  | nil => rfl
  | cons a t =>
    have := h a rfl
    simp [List.dropWhile, this]

lemma pyStrip_collapseWs (l : List Char) : pyStrip (collapseWs l) = collapseWs l := by
  have hgood := pyWords_goodWords l
  have h1 : (collapseWs l).dropWhile pyIsSpace = collapseWs l :=
    dropWhile_eq_self_of_head (joinSp_head_nonspace (pyWords l) hgood)
  have h2 : (collapseWs l).reverse.dropWhile pyIsSpace = (collapseWs l).reverse := by
    refine dropWhile_eq_self_of_head ?_
    intro c hc
    rw [List.head?_reverse] at hc
    exact joinSp_getLast_nonspace (pyWords l) hgood c hc
  unfold pyStrip
  rw [h1, h2, List.reverse_reverse]

/-- Every run of the sanitizer ends in the fixed apology or in a
non-empty `collapseWs` image. -/
lemma cleanResponseContent_cases (l : List Char) :
    cleanResponseContent l = apologyText ∨
      (∃ x, cleanResponseContent l = collapseWs x ∧ collapseWs x ≠ []) := by
  unfold cleanResponseContent
  by_cases h0 : l = []
  · rw [if_pos h0]; exact Or.inl rfl
  · rw [if_neg h0]
    by_cases h1 : cleanCore l = []
    · rw [if_pos h1]; exact Or.inl rfl
    · rw [if_neg h1]
      refine Or.inr ⟨stripQuotesStage (pyStrip (unescapeStage (stripWrapperStage l))), ?_, ?_⟩
      · rfl
      · exact h1

/-! ## Claims C7, C8, C9: the Response Sanitizer -/

/-- C7, counterexample: the sanitizer is not idempotent as claimed. On
the input `TextMessage(TextMessage(hi))` one application strips one
wrapper layer, yielding `TextMessage(hi)`, and a second application
strips the next, so `clean (clean s) ≠ clean s`. -/
theorem c7_counterexample :
    cleanResponseContent "TextMessage(TextMessage(hi))".toList =
        "TextMessage(hi)".toList ∧
      cleanResponseContent (cleanResponseContent "TextMessage(TextMessage(hi))".toList) =
        "hi".toList ∧
      cleanResponseContent (cleanResponseContent "TextMessage(TextMessage(hi))".toList) ≠
        cleanResponseContent "TextMessage(TextMessage(hi))".toList := by
  refine ⟨by decide, by decide, by decide⟩

/-- C7, amended: the Response Sanitizer is idempotent on every input
whose cleaned result does not itself again look sanitizable — i.e. does
not start with the `TextMessage(` wrapper and is not enclosed in
matching double or single quotes. For such inputs
`clean (clean s) = clean s`. -/
theorem c7_sanitizer_idempotent_amended (l : List Char)
    (h1 : tmWrapper.isPrefixOf (cleanResponseContent l) = false)
    (h2 : (startsWithChar (cleanResponseContent l) dq &&
           endsWithChar (cleanResponseContent l) dq) = false)
    (h3 : (startsWithChar (cleanResponseContent l) sq &&
           endsWithChar (cleanResponseContent l) sq) = false) :
    cleanResponseContent (cleanResponseContent l) = cleanResponseContent l := by
  rcases cleanResponseContent_cases l with hap | ⟨x, hx, hne⟩
  · rw [hap]
    decide
  · rw [hx] at h1 h2 h3 ⊢
    have hsw : stripWrapperStage (collapseWs x) = collapseWs x := by
      unfold stripWrapperStage
      rw [if_neg (by simp [h1])]
    have hue : unescapeStage (collapseWs x) = collapseWs x := by
      unfold unescapeStage
      rw [if_neg (by simp [h2])]
    have hsq : stripQuotesStage (collapseWs x) = collapseWs x := by
      unfold stripQuotesStage
      rw [if_neg (by simp [h2, h3])]
    have hcore : cleanCore (collapseWs x) = collapseWs x := by
      unfold cleanCore
      rw [hsw, hue, pyStrip_collapseWs, hsq, collapseWs_idem]
    unfold cleanResponseContent
    rw [if_neg hne, hcore, if_neg hne]

/-- Witness for the amended C7 at a concrete input. -/
theorem c7_sanitizer_idempotent_amended_witness :
    cleanResponseContent (cleanResponseContent "hello  world".toList) =
      cleanResponseContent "hello  world".toList :=
  c7_sanitizer_idempotent_amended "hello  world".toList (by decide) (by decide) (by decide)

/-- C8, counterexample: a text containing literal backslash escapes but
not enclosed in double quotes is NOT manually unescaped — the `except`
arm is reachable only when `json.loads` was attempted, which requires
enclosing double quotes. On `line1\nlide2`-style input the sanitizer
returns it unchanged, whereas the claim predicts the escape is replaced
(and the resulting newline whitespace-collapsed to a space). -/
theorem c8_counterexample :
    cleanResponseContent "line1\\nline2".toList = "line1\\nline2".toList ∧
      manualUnescape "line1\\nline2".toList = "line1\nline2".toList ∧
      cleanResponseContent "line1\\nline2".toList ≠ "line1 line2".toList := by
  refine ⟨by decide, by decide, by decide⟩

/-- C8, amended: the manual unescape of `\n \t \r \" \' \\` runs
exactly when the text (after wrapper stripping) is enclosed in double
quotes yet fails to parse as a JSON string literal; a text not enclosed
in double quotes keeps its escape sequences intact through the
escape-handling step. -/
theorem c8_unescape_condition :
    (∀ l, (startsWithChar l dq && endsWithChar l dq) = false → unescapeStage l = l) ∧
    (∀ l, (startsWithChar l dq && endsWithChar l dq) = true →
        jsonLoadsStringLit l = none → unescapeStage l = manualUnescape l) := by
  constructor
  · intro l h
    unfold unescapeStage
    rw [if_neg (by simp [h])]
  · intro l h hj
    unfold unescapeStage
    rw [if_pos h, hj]

/-- Witness for the amended C8 at concrete inputs: an unquoted text
passes through unchanged; a quoted text that is not valid JSON takes
the manual-unescape path. -/
theorem c8_unescape_condition_witness :
    unescapeStage "line1\\nline2".toList = "line1\\nline2".toList ∧
      unescapeStage "\"a\" \"b\"".toList = manualUnescape "\"a\" \"b\"".toList :=
  ⟨c8_unescape_condition.1 _ (by decide), c8_unescape_condition.2 _ (by decide) (by decide)⟩

/-- C9: the Response Sanitizer is total and deterministic (it is a pure
function of its input), never returns the empty string, returns the
fixed apology on empty input, and returns the fixed apology whenever
the cleaning pipeline comes out empty. -/
theorem c9_sanitizer_total :
    (∀ l, cleanResponseContent l ≠ []) ∧
      cleanResponseContent [] = apologyText ∧
      (∀ l, cleanCore l = [] → cleanResponseContent l = apologyText) := by
  refine ⟨?_, by decide, ?_⟩
  · intro l
    rcases cleanResponseContent_cases l with h | ⟨x, hx, hne⟩
    · rw [h]; decide
    · rw [hx]; exact hne
  · intro l h
    unfold cleanResponseContent
    by_cases h0 : l = []
    · rw [if_pos h0]
    · rw [if_neg h0, if_pos h]

/-- Witness: the inner-emptiness guard of C9 at a concrete input (the
JSON literal `""` decodes to the empty string mid-pipeline). -/
theorem c9_sanitizer_total_witness :
    cleanResponseContent "\"\"".toList = apologyText :=
  c9_sanitizer_total.2.2 "\"\"".toList (by decide)

/-! ## Lemmas: the routed-agent state machine -/

/-- The context carried by a published message. -/
def pubContext : Published → List LLMMessage
  | ⟨_, _, BusMessage.userTask t⟩ => t.context
  | ⟨_, _, BusMessage.agentResponse r⟩ => r.context

lemma ctxLeAppend {α : Type} (l t : List α) : l <+: l ++ t := ⟨t, rfl⟩

lemma ctxLeTrans {α : Type} {l m n : List α} (h1 : l <+: m) (h2 : m <+: n) :
    l <+: n := by
  obtain ⟨t1, rfl⟩ := h1
  obtain ⟨t2, rfl⟩ := h2
  exact ⟨t1 ++ t2, by rw [List.append_assoc]⟩

/-- Every delegate target produced by one model turn is built from the
incoming context extended by exactly the delegate-call AssistantTurn
and the synthetic transfer ToolResultTurn — the direct-tool results of
the same turn never enter it. -/
lemma processCalls_delegate_shape (cfg : AgentConfig) (context : List LLMMessage)
    (sid : String) :
    ∀ cs rs ds, processCalls cfg context sid cs = Except.ok (rs, ds) →
      ∀ d ∈ ds, ∃ c t, c ∈ cs ∧ toolLookup cfg.tools c.name = none ∧
        toolLookup cfg.delegate_tools c.name = some t ∧
        d = (t c.arguments,
          ⟨context ++ [LLMMessage.assistant (ChatContent.calls [c]) cfg.agent_name,
            LLMMessage.results [⟨c.id,
              "Transferred to " ++ t c.arguments ++ ". Please continue the conversation.",
              false, c.name⟩]], sid⟩) := by
  intro cs
  induction cs with
  | nil =>
    intro rs ds h d hd
    simp only [processCalls, Except.ok.injEq, Prod.mk.injEq] at h
    rw [← h.2] at hd
    simp at hd
  | cons call more ih =>
    intro rs ds h d hd
    cases hl : toolLookup cfg.tools call.name with
    | some tool =>
      rw [processCalls, hl] at h
      cases hrec : processCalls cfg context sid more with
      | error e => rw [hrec] at h; simp at h
      | ok p =>
        rw [hrec] at h
        simp only [Except.ok.injEq, Prod.mk.injEq] at h
        obtain ⟨c, t, hc, h1, h2, h3⟩ := ih p.1 p.2 (by rw [hrec]) d (by rw [h.2]; exact hd)
        exact ⟨c, t, List.mem_cons_of_mem call hc, h1, h2, h3⟩
    | none =>
      cases hdl : toolLookup cfg.delegate_tools call.name with
      | some dtool =>
        rw [processCalls, hl, hdl] at h
        cases hrec : processCalls cfg context sid more with
        | error e => rw [hrec] at h; simp at h
        | ok p =>
          rw [hrec] at h
          simp only [Except.ok.injEq, Prod.mk.injEq] at h
          rw [← h.2] at hd
          rcases List.mem_cons.mp hd with hd | hd
          · exact ⟨call, dtool, List.mem_cons_self call more, hl, hdl, hd⟩
          · obtain ⟨c, t, hc, h1, h2, h3⟩ := ih p.1 p.2 (by rw [hrec]) d hd
            exact ⟨c, t, List.mem_cons_of_mem call hc, h1, h2, h3⟩
      | none =>
        rw [processCalls, hl, hdl] at h
        simp at h

/-- When every call name of a turn is in one of the two registries, the
call loop completes without raising. -/
lemma processCalls_ok_of_known (cfg : AgentConfig) (context : List LLMMessage)
    (sid : String) :
    ∀ cs, (∀ c ∈ cs, (toolLookup cfg.tools c.name).isSome ∨
        (toolLookup cfg.delegate_tools c.name).isSome) →
      ∃ rs ds, processCalls cfg context sid cs = Except.ok (rs, ds) := by
  intro cs
  induction cs with
  | nil => intro _; exact ⟨[], [], rfl⟩
  | cons call more ih =>
    intro hknown
    obtain ⟨rs, ds, hrec⟩ := ih fun c hc => hknown c (List.mem_cons_of_mem call hc)
    cases hl : toolLookup cfg.tools call.name with
    | some tool =>
      refine ⟨⟨call.id, tool call.arguments, false, call.name⟩ :: rs, ds, ?_⟩
      rw [processCalls, hl, hrec]
    | none =>
      cases hdl : toolLookup cfg.delegate_tools call.name with
      | some dtool =>
        refine ⟨rs, (dtool call.arguments,
          ⟨context ++ [LLMMessage.assistant (ChatContent.calls [call]) cfg.agent_name,
            LLMMessage.results [⟨call.id,
              "Transferred to " ++ dtool call.arguments ++ ". Please continue the conversation.",
              false, call.name⟩]], sid⟩) :: ds, ?_⟩
        rw [processCalls, hl, hdl, hrec]
      | none =>
        have := hknown call (List.mem_cons_self call more)
        rw [hl, hdl] at this
        simp at this

/-- A delegate call in the turn guarantees at least one delegate
target. -/
lemma processCalls_delegate_ne_nil (cfg : AgentConfig) (context : List LLMMessage)
    (sid : String) :
    ∀ cs rs ds, processCalls cfg context sid cs = Except.ok (rs, ds) →
      ∀ c ∈ cs, toolLookup cfg.tools c.name = none →
        (toolLookup cfg.delegate_tools c.name).isSome → ds ≠ [] := by
  intro cs
  induction cs with
  | nil => intro rs ds h c hc; simp at hc
  | cons call more ih =>
    intro rs ds h c hc hnone hsome
    cases hl : toolLookup cfg.tools call.name with
    | some tool =>
      rw [processCalls, hl] at h
      cases hrec : processCalls cfg context sid more with
      | error e => rw [hrec] at h; simp at h
      | ok p =>
        rw [hrec] at h
        simp only [Except.ok.injEq, Prod.mk.injEq] at h
        rcases List.mem_cons.mp hc with hc | hc
        · subst hc; rw [hnone] at hl; simp at hl
        · rw [← h.2]
          exact ih p.1 p.2 (by rw [hrec]) c hc hnone hsome
    | none =>
      cases hdl : toolLookup cfg.delegate_tools call.name with
      | some dtool =>
        rw [processCalls, hl, hdl] at h
        cases hrec : processCalls cfg context sid more with
        | error e => rw [hrec] at h; simp at h
        | ok p =>
          rw [hrec] at h
          simp only [Except.ok.injEq, Prod.mk.injEq] at h
          rw [← h.2]
          simp
      | none =>
        rw [processCalls, hl, hdl] at h
        simp at h

/-- An unknown call name anywhere in the turn makes the call loop
raise. -/
lemma processCalls_error_of_unknown (cfg : AgentConfig) (context : List LLMMessage)
    (sid : String) :
    ∀ cs call, call ∈ cs → (toolLookup cfg.tools call.name).isNone →
      (toolLookup cfg.delegate_tools call.name).isNone →
      ∃ e, processCalls cfg context sid cs = Except.error e := by
  intro cs
  induction cs with
  | nil => intro call hc; simp at hc
  | cons c more ih =>
    intro call hc h1 h2
    rcases List.mem_cons.mp hc with hc | hc
    · subst hc
      rw [Option.isNone_iff_eq_none] at h1 h2
      exact ⟨"Unknown tool: " ++ call.name, by rw [processCalls, h1, h2]⟩
    · obtain ⟨e, he⟩ := ih call hc h1 h2
      cases hl : toolLookup cfg.tools c.name with
      | some tool => exact ⟨e, by rw [processCalls, hl, he]⟩
      | none =>
        cases hdl : toolLookup cfg.delegate_tools c.name with
        | some dtool => exact ⟨e, by rw [processCalls, hl, hdl, he]⟩
        | none => exact ⟨"Unknown tool: " ++ c.name, by rw [processCalls, hl, hdl]⟩

/-- Each hop only appends: the incoming context is a prefix of the
context of every message the hop publishes. -/
lemma processTask_ctx_le (cfg : AgentConfig) :
    ∀ oracle context sid pubs,
      processTaskInternal cfg oracle context sid = Except.ok pubs →
        ∀ p ∈ pubs, context <+: pubContext p := by
  intro oracle
  induction oracle with
  | nil => intro context sid pubs h; simp [processTaskInternal] at h
  | cons r rest ih =>
    intro context sid pubs h p hp
    cases r with
    | text s =>
      rw [processTaskInternal] at h
      simp only [Except.ok.injEq] at h
      rw [← h] at hp
      simp only [List.mem_singleton] at hp
      subst hp
      exact ctxLeAppend _ _
    | calls cs =>
      rw [processTaskInternal] at h
      cases hpc : processCalls cfg context sid cs with
      | error e => rw [hpc] at h; simp at h
      | ok pr =>
        obtain ⟨trs, ds⟩ := pr
        rw [hpc] at h
        by_cases hds : ds = []
        · by_cases htrs : trs = []
          · rw [hds, htrs] at h
            simp at h
          · rw [hds] at h
            simp only [ne_eq, not_true_eq_false, if_false, htrs, not_false_eq_true,
              if_true] at h
            exact ctxLeTrans (ctxLeAppend _ _) (ih _ sid pubs h p hp)
        · simp only [ne_eq, hds, not_false_eq_true, if_true, Except.ok.injEq] at h
          rw [← h] at hp
          obtain ⟨d, hd, hdp⟩ := List.mem_map.mp hp
          obtain ⟨c, t, _, _, _, hshape⟩ :=
            processCalls_delegate_shape cfg context sid cs trs ds
              (by rw [hpc]) d hd
          rw [← hdp, hshape]
          exact ctxLeAppend _ _

/-! ## Claims C1, C2, C5: the routed agent -/

def c1direct : FunctionCall := ⟨"call1", "web_search", "ai"⟩

def c1delegate : FunctionCall := ⟨"call2", "transfer_to_summarizer", ""⟩

def c1ctx : List LLMMessage := [LLMMessage.user "hi" "user"]

def c1transfer : FunctionExecutionResult :=
  ⟨"call2", "Transferred to SummarizerAgent. Please continue the conversation.",
   false, "transfer_to_summarizer"⟩

/-- The context the delegated Summarizer inherits in the C1 scenario:
the incoming context plus the delegate-call AssistantTurn and the
synthetic transfer ToolResultTurn — and nothing else. -/
def c1taskContext : List LLMMessage :=
  c1ctx ++ [LLMMessage.assistant (ChatContent.calls [c1delegate]) "ResearcherAgent",
            LLMMessage.results [c1transfer]]

/-- C1, counterexample: a Researcher model turn containing both a
direct `web_search` call and a `transfer_to_summarizer` call does stop
the agent and publish a Task to the Summarizer, but the published
context contains NO ToolResultTurn for the direct call — the direct
result computed in that turn is discarded, contradicting the claim that
the delegated agent inherits it. -/
theorem c1_counterexample :
    processTaskInternal researcherCfg [ModelResult.calls [c1direct, c1delegate]] c1ctx "s"
        = Except.ok [⟨"SummarizerAgent", "s", BusMessage.userTask ⟨c1taskContext, "s"⟩⟩]
      ∧ c1taskContext.filter (fun m =>
          match m with
          | LLMMessage.results frs => frs.any (fun fr => fr.call_id = "call1")
          | _ => false) = [] := by
  refine ⟨by rfl, by decide⟩

/-- C1, amended: when a model turn contains delegate calls (all call
names being registered), delegation wins — the agent stops its own loop
and every published message is a Task to a delegate target — but each
delegated context is the incoming context extended by exactly the
delegate-call AssistantTurn and the synthetic transfer ToolResultTurn;
the direct-tool results computed in that same turn are discarded, not
inherited. -/
theorem c1_delegation_wins_discarding_direct (cfg : AgentConfig)
    (cs : List FunctionCall) (rest : List ModelResult)
    (context : List LLMMessage) (sid : String)
    (hknown : ∀ c ∈ cs, (toolLookup cfg.tools c.name).isSome ∨
        (toolLookup cfg.delegate_tools c.name).isSome)
    (hdel : ∃ c ∈ cs, (toolLookup cfg.tools c.name).isNone ∧
        (toolLookup cfg.delegate_tools c.name).isSome) :
    ∃ pubs, processTaskInternal cfg (ModelResult.calls cs :: rest) context sid
        = Except.ok pubs ∧ pubs ≠ [] ∧
      ∀ p ∈ pubs, ∃ c t, c ∈ cs ∧
        toolLookup cfg.tools c.name = none ∧
        toolLookup cfg.delegate_tools c.name = some t ∧
        p = ⟨t c.arguments, sid, BusMessage.userTask
          ⟨context ++ [LLMMessage.assistant (ChatContent.calls [c]) cfg.agent_name,
            LLMMessage.results [⟨c.id,
              "Transferred to " ++ t c.arguments ++ ". Please continue the conversation.",
              false, c.name⟩]], sid⟩⟩ := by
  obtain ⟨rs, ds, hok⟩ := processCalls_ok_of_known cfg context sid cs hknown
  obtain ⟨c0, hc0, hn0, hs0⟩ := hdel
  have hds : ds ≠ [] :=
    processCalls_delegate_ne_nil cfg context sid cs rs ds hok c0 hc0
      (Option.isNone_iff_eq_none.mp hn0) hs0
  refine ⟨ds.map (fun p => ⟨p.1, sid, BusMessage.userTask p.2⟩), ?_, ?_, ?_⟩
  · rw [processTaskInternal, hok]
    simp [hds]
  · simp [hds]
  · intro p hp
    obtain ⟨d, hd, hdp⟩ := List.mem_map.mp hp
    obtain ⟨c, t, hc, h1, h2, h3⟩ :=
      processCalls_delegate_shape cfg context sid cs rs ds hok d hd
    refine ⟨c, t, hc, h1, h2, ?_⟩
    rw [← hdp, h3]

/-- Witness for the amended C1 at the concrete C1 scenario. -/
theorem c1_delegation_wins_discarding_direct_witness :
    ∃ pubs, processTaskInternal researcherCfg
        [ModelResult.calls [c1direct, c1delegate]] c1ctx "s" = Except.ok pubs ∧
      pubs ≠ [] := by
  obtain ⟨pubs, h1, h2, _⟩ :=
    c1_delegation_wins_discarding_direct researcherCfg [c1direct, c1delegate] [] c1ctx "s"
      (by decide) ⟨c1delegate, by decide, by decide, by decide⟩
  exact ⟨pubs, h1, h2⟩

/-- C2: along every delegation chain the context is only extended by
appending, so the initial task's context is a prefix of the terminal
AgentResponse's context; hence the length is monotonically
non-decreasing and every turn of the initial context appears in the
final context. -/
theorem c2_context_append_only (t : UserTask) (r : AgentResponse) (h : Chain t r) :
    t.context <+: r.context ∧ t.context.length ≤ r.context.length ∧
      ∀ m ∈ t.context, m ∈ r.context := by
  have hle : t.context <+: r.context := by
    induction h with
    | final t topic src r hop =>
      cases hop with
      | mk cfg oracle t pubs p hrun hmem =>
        exact processTask_ctx_le cfg oracle t.context t.session_id pubs hrun _ hmem
    | step t topic src t' r hop hc ih =>
      cases hop with
      | mk cfg oracle t pubs p hrun hmem =>
        exact ctxLeTrans
          (processTask_ctx_le cfg oracle t.context t.session_id pubs hrun _ hmem) ih
  refine ⟨hle, ?_, ?_⟩
  · obtain ⟨s, hs⟩ := hle
    rw [← hs]
    simp
  · intro m hm
    obtain ⟨s, hs⟩ := hle
    rw [← hs]
    exact List.mem_append_left s hm

def c2dcall : FunctionCall := ⟨"c1", "transfer_to_summarizer", ""⟩

def c2t0 : UserTask := ⟨[LLMMessage.user "hi" "user"], "s"⟩

def c2ctx1 : List LLMMessage :=
  c2t0.context ++
    [LLMMessage.assistant (ChatContent.calls [c2dcall]) "ResearcherAgent",
     LLMMessage.results [⟨"c1",
       "Transferred to SummarizerAgent. Please continue the conversation.",
       false, "transfer_to_summarizer"⟩]]

def c2t1 : UserTask := ⟨c2ctx1, "s"⟩

def c2r : AgentResponse :=
  ⟨"SummarizerAgent",
   c2ctx1 ++ [LLMMessage.assistant (ChatContent.text "done") "SummarizerAgent"], "s"⟩

/-- Witness for C2 on a concrete two-hop chain
Researcher → Summarizer → coordinator. -/
theorem c2_context_append_only_witness :
    c2t0.context <+: c2r.context ∧ c2t0.context.length ≤ c2r.context.length := by
  have h1 : processTaskInternal researcherCfg [ModelResult.calls [c2dcall]]
      c2t0.context "s" = Except.ok [⟨"SummarizerAgent", "s", BusMessage.userTask c2t1⟩] := by
    rfl
  have h2 : processTaskInternal summarizerCfg [ModelResult.text "done"]
      c2t1.context "s" =
      Except.ok [⟨"MultiAgentCoordinator", "s", BusMessage.agentResponse c2r⟩] := by
    rfl
  have hop1 : Hop c2t0 ⟨"SummarizerAgent", "s", BusMessage.userTask c2t1⟩ :=
    Hop.mk researcherCfg [ModelResult.calls [c2dcall]] c2t0 _ _ h1
      (List.mem_singleton_self _)
  have hop2 : Hop c2t1 ⟨"MultiAgentCoordinator", "s", BusMessage.agentResponse c2r⟩ :=
    Hop.mk summarizerCfg [ModelResult.text "done"] c2t1 _ _ h2
      (List.mem_singleton_self _)
  have hchain : Chain c2t0 c2r :=
    Chain.step c2t0 "SummarizerAgent" "s" c2t1 c2r hop1
      (Chain.final c2t1 "MultiAgentCoordinator" "s" c2r hop2)
  exact ⟨(c2_context_append_only c2t0 c2r hchain).1,
    (c2_context_append_only c2t0 c2r hchain).2.1⟩

/-- C5: a model turn requesting a tool whose name is in neither
registry terminates the task with an error before anything is
published: an `Except.error` run publishes no message at all, so no
AgentResponse reaches the coordinator topic, and nothing retries the
task. -/
theorem c5_unknown_tool (cfg : AgentConfig) (cs : List FunctionCall)
    (rest : List ModelResult) (context : List LLMMessage) (sid : String)
    (call : FunctionCall) (hmem : call ∈ cs)
    (h1 : (toolLookup cfg.tools call.name).isNone)
    (h2 : (toolLookup cfg.delegate_tools call.name).isNone) :
    ∃ e, processTaskInternal cfg (ModelResult.calls cs :: rest) context sid
      = Except.error e := by
  obtain ⟨e, he⟩ := processCalls_error_of_unknown cfg context sid cs call hmem h1 h2
  exact ⟨e, by rw [processTaskInternal, he]⟩

def c5call : FunctionCall := ⟨"x", "web_search", "q"⟩

/-- Witness for C5: the Summarizer has no `web_search` tool in either
registry, so a turn requesting it aborts the task. -/
theorem c5_unknown_tool_witness :
    ∃ e, processTaskInternal summarizerCfg [ModelResult.calls [c5call]] [] "s"
      = Except.error e :=
  c5_unknown_tool summarizerCfg [c5call] [] [] "s" c5call
    (List.mem_singleton_self _) (by decide) (by decide)

/-! ## Lemmas: the Response Store and the wait loop -/

lemma storeLookup_storeSet_self (st : Store) (sid : String) (v : List Message) :
    storeLookup (storeSet st sid v) sid = some v := by
  induction st with
  | nil => simp [storeSet, storeLookup]
  | cons kv rest ih =>
    by_cases hk : kv.1 = sid
    · simp [storeSet, storeLookup, hk]
    · simp [storeSet, storeLookup, hk, ih]

lemma storeLookup_storeSet_other (st : Store) (sid sid' : String) (v : List Message)
    (h : sid' ≠ sid) :
    storeLookup (storeSet st sid v) sid' = storeLookup st sid' := by
  induction st with
  | nil =>
    show (if sid = sid' then some v else storeLookup [] sid') = storeLookup [] sid'
    rw [if_neg (fun he => h he.symm)]
  | cons kv rest ih =>
    by_cases hk : kv.1 = sid
    · rw [show storeSet (kv :: rest) sid v = (kv.1, v) :: rest by
        simp [storeSet, hk]]
      rw [show storeLookup ((kv.1, v) :: rest) sid' =
          if kv.1 = sid' then some v else storeLookup rest sid' from rfl]
      rw [show storeLookup (kv :: rest) sid' =
          if kv.1 = sid' then some kv.2 else storeLookup rest sid' from rfl]
      rw [if_neg (fun he => h (by rw [← he, hk])),
        if_neg (fun he => h (by rw [← he, hk]))]
    · rw [show storeSet (kv :: rest) sid v = (kv.1, kv.2) :: storeSet rest sid v by
        simp [storeSet, hk]]
      rw [show storeLookup ((kv.1, kv.2) :: storeSet rest sid v) sid' =
          if kv.1 = sid' then some kv.2 else storeLookup (storeSet rest sid v) sid'
          from rfl]
      rw [show storeLookup (kv :: rest) sid' =
          if kv.1 = sid' then some kv.2 else storeLookup rest sid' from rfl]
      rw [ih]

lemma storeLookup_eq_none_of_not_mem (st : Store) (sid : String)
    (h : sid ∉ st.map Prod.fst) : storeLookup st sid = none := by
  induction st with
  | nil => rfl
  | cons kv rest ih =>
    simp only [List.map_cons, List.mem_cons] at h
    push_neg at h
    rw [show storeLookup (kv :: rest) sid =
        if kv.1 = sid then some kv.2 else storeLookup rest sid from rfl]
    rw [if_neg (fun he => h.1 he.symm)]
    exact ih h.2

lemma storeLookup_storeErase_self (st : Store) (sid : String)
    (hwf : (st.map Prod.fst).Nodup) :
    storeLookup (storeErase st sid) sid = none := by
  induction st with
  | nil => rfl
  | cons kv rest ih =>
    simp only [List.map_cons, List.nodup_cons] at hwf
    by_cases hk : kv.1 = sid
    · rw [show storeErase (kv :: rest) sid = rest by simp [storeErase, hk]]
      exact storeLookup_eq_none_of_not_mem rest sid (hk ▸ hwf.1)
    · rw [show storeErase (kv :: rest) sid = (kv.1, kv.2) :: storeErase rest sid by
        simp [storeErase, hk]]
      rw [show storeLookup ((kv.1, kv.2) :: storeErase rest sid) sid =
          if kv.1 = sid then some kv.2 else storeLookup (storeErase rest sid) sid
          from rfl]
      rw [if_neg hk]
      exact ih hwf.2

lemma storeAppend_self (st : Store) (sid : String) (m : Message) :
    storeLookup (storeAppend st sid m) sid
      = some ((storeLookup st sid).getD [] ++ [m]) := by
  unfold storeAppend
  cases h : storeLookup st sid with
  | none => rw [storeLookup_storeSet_self]; simp
  | some v => rw [storeLookup_storeSet_self]; simp

lemma storeAppend_other (st : Store) (sid sid' : String) (m : Message)
    (h : sid' ≠ sid) :
    storeLookup (storeAppend st sid m) sid' = storeLookup st sid' := by
  unfold storeAppend
  cases hl : storeLookup st sid with
  | none => exact storeLookup_storeSet_other st sid sid' [m] h
  | some v => exact storeLookup_storeSet_other st sid sid' (v ++ [m]) h

lemma pollWait_eq (storeAt : Nat → Store) (sid : String) (fuel w : Nat) :
    pollWait storeAt sid fuel w =
      if storeNonempty (storeAt w) sid then some w
      else if maxWaitTicks ≤ w then none
      else
        match fuel with
        | 0 => none
        | f + 1 => pollWait storeAt sid f (w + 1) := by
  cases fuel with
  | zero => rfl
  | succ f => rfl

/-- If the store entry stays empty through the ceiling, the wait loop
times out. -/
lemma pollWait_none (storeAt : Nat → Store) (sid : String)
    (hempty : ∀ v, v ≤ maxWaitTicks → storeNonempty (storeAt v) sid = false) :
    ∀ fuel w, w ≤ maxWaitTicks → pollWait storeAt sid fuel w = none := by
  intro fuel
  induction fuel with
  | zero =>
    intro w hw
    rw [pollWait_eq, hempty w hw, if_neg (by simp)]
    by_cases h3 : maxWaitTicks ≤ w
    · rw [if_pos h3]
    · rw [if_neg h3]
  | succ f ih =>
    intro w hw
    rw [pollWait_eq, hempty w hw, if_neg (by simp)]
    by_cases h3 : maxWaitTicks ≤ w
    · rw [if_pos h3]
    · rw [if_neg h3]
      exact ih (w + 1) (by omega)

/-- The wait loop returns the first poll tick at which the entry is
non-empty, provided that tick is within the ceiling. -/
lemma pollWait_first_hit (storeAt : Nat → Store) (sid : String) (n : Nat)
    (hn : n ≤ maxWaitTicks)
    (hbefore : ∀ v, v < n → storeNonempty (storeAt v) sid = false)
    (hhit : storeNonempty (storeAt n) sid = true) :
    ∀ fuel w, w ≤ n → n ≤ w + fuel → pollWait storeAt sid fuel w = some n := by
  intro fuel
  induction fuel with
  | zero =>
    intro w hw1 hw2
    have hwn : w = n := by omega
    subst hwn
    rw [pollWait_eq, hhit, if_pos (by simp)]
  | succ f ih =>
    intro w hw1 hw2
    by_cases hwn : w = n
    · subst hwn
      rw [pollWait_eq, hhit, if_pos (by simp)]
    · have hlt : w < n := by omega
      rw [pollWait_eq, hbefore w hlt, if_neg (by simp),
        if_neg (by omega : ¬maxWaitTicks ≤ w)]
      exact ih (w + 1) (by omega) (by omega)

/-! ## Claims C3, C4: the wait loop of generate_response -/

/-- C3: if the coordinator never writes within the 30-second ceiling
(300 poll ticks of 100 ms), the wait phase returns the fixed "taking
longer than expected" message — once, as the single return value of a
terminating function — and the session's store entry is left allocated,
not deleted. -/
theorem c3_timeout_path (storeAt : Nat → Store) (sid : String)
    (hempty : ∀ w, w ≤ maxWaitTicks → storeLookup (storeAt w) sid = some []) :
    generateResponseWait storeAt sid = (timeoutMessage, storeAt maxWaitTicks) ∧
      storeLookup (storeAt maxWaitTicks) sid = some [] := by
  have hne : ∀ v, v ≤ maxWaitTicks → storeNonempty (storeAt v) sid = false := by
    intro v hv
    unfold storeNonempty
    rw [hempty v hv]
  have hpoll := pollWait_none storeAt sid hne maxWaitTicks 0 (by omega)
  constructor
  · unfold generateResponseWait
    rw [hpoll]
  · exact hempty maxWaitTicks (by omega)

/-- Witness for C3: a store whose only entry stays empty forever. -/
theorem c3_timeout_path_witness :
    generateResponseWait (fun _ => [("s", [])]) "s"
        = (timeoutMessage, [("s", [])]) ∧
      storeLookup [("s", ([] : List Message))] "s" = some [] :=
  c3_timeout_path (fun _ => [("s", [])]) "s" (fun _ _ => rfl)

/-- C4: when the entry first becomes non-empty at a poll tick within
the ceiling, the wait phase returns the content of the last stored
message, deletes the session's entry, and afterwards the session id is
no longer present in the store. -/
theorem c4_success_path (storeAt : Nat → Store) (sid : String) (n : Nat)
    (msgs : List Message) (m : Message)
    (hwf : ((storeAt n).map Prod.fst).Nodup)
    (hn : n ≤ maxWaitTicks)
    (hbefore : ∀ v, v < n → storeNonempty (storeAt v) sid = false)
    (hlook : storeLookup (storeAt n) sid = some msgs)
    (hlast : msgs.getLast? = some m) :
    generateResponseWait storeAt sid = (m.content, storeErase (storeAt n) sid) ∧
      storeLookup (storeErase (storeAt n) sid) sid = none := by
  have hne : msgs ≠ [] := by
    intro habs
    rw [habs] at hlast
    simp at hlast
  obtain ⟨m0, ms, rfl⟩ := List.exists_cons_of_ne_nil hne
  have hhit : storeNonempty (storeAt n) sid = true := by
    unfold storeNonempty
    rw [hlook]
  have hpoll :=
    pollWait_first_hit storeAt sid n hn hbefore hhit maxWaitTicks 0 (by omega) (by omega)
  have hgl : (m0 :: ms).getLast (by simp) = m := by
    have h2 := List.getLast?_eq_getLast_of_ne_nil (l := m0 :: ms) (by simp)
    rw [h2] at hlast
    injection hlast
  constructor
  · unfold generateResponseWait
    rw [hpoll]
    simp only [hlook, hgl]
  · exact storeLookup_storeErase_self (storeAt n) sid hwf

/-- Witness for C4: the entry is non-empty at the first poll. -/
theorem c4_success_path_witness :
    generateResponseWait (fun _ => [("s", [⟨"assistant", "hello"⟩])]) "s"
        = ("hello", storeErase [("s", [⟨"assistant", "hello"⟩])] "s") ∧
      storeLookup (storeErase [("s", [(⟨"assistant", "hello"⟩ : Message)])] "s") "s"
        = none :=
  c4_success_path (fun _ => [("s", [⟨"assistant", "hello"⟩])]) "s" 0
    [⟨"assistant", "hello"⟩] ⟨"assistant", "hello"⟩ (by simp) (by omega)
    (fun v hv => absurd hv (Nat.not_lt_zero v)) rfl rfl

/-! ## Lemmas: the coordinator's store write -/

/-- The text the coordinator ends up storing for a given context: the
content of the last known-source turn when it is non-empty text; the
fixed fallback when no such turn exists or its content is falsy; and
the rendered exception text when the content is a non-empty
pending-tool-call list (building `Message(content=<list>)` raises). -/
def coordReply (errText : String) (ctx : List LLMMessage) : String :=
  match findFinalResponse ctx with
  | ChatContent.text s => if s = "" then noProperResponse else s
  | ChatContent.calls cs => if cs = [] then noProperResponse else coordErrorLead ++ errText

lemma handleAgentResponse_eq (errText : String) (st : Store) (resp : AgentResponse) :
    handleAgentResponse errText st resp =
      storeAppend st resp.session_id ⟨"assistant", coordReply errText resp.context⟩ := by
  unfold handleAgentResponse coordReply
  cases hfr : findFinalResponse resp.context with
  | text s =>
    by_cases hs : s = ""
    · subst hs
      simp [contentTruthy]
    · simp [contentTruthy, hs]
  | calls cs =>
    by_cases hc : cs = []
    · subst hc
      simp [contentTruthy]
    · simp [contentTruthy, hc]

/-! ## Claims C6, C10: the coordinator -/

def c6respA : AgentResponse :=
  ⟨"ResearcherAgent", [LLMMessage.assistant (ChatContent.text "") "ResearcherAgent"], "sa"⟩

def c6respB : AgentResponse :=
  ⟨"ResearcherAgent",
   [LLMMessage.assistant (ChatContent.text "real answer") "ResearcherAgent",
    LLMMessage.user "question" "ResearcherAgent"], "sb"⟩

/-- C6, counterexample. Two divergences from the claim: (a) a found
AssistantTurn with empty text triggers the fallback (the claim reserves
the fallback for "no such turn found"); (b) the scan matches any turn
carrying a known `source`, not only AssistantTurns — a UserTurn whose
source is "ResearcherAgent" shadows the real assistant answer before
it. -/
theorem c6_counterexample :
    handleAgentResponse "e" [] c6respA = [("sa", [⟨"assistant", noProperResponse⟩])] ∧
      noProperResponse ≠ "" ∧
      handleAgentResponse "e" [] c6respB = [("sb", [⟨"assistant", "question"⟩])] ∧
      "question" ≠ "real answer" := by
  refine ⟨by decide, by decide, by decide, by decide⟩

/-- C6, amended: on every AgentResponse the coordinator appends exactly
one finalized assistant message to that session's entry (creating it if
absent) and never deletes or touches other entries; the stored text is
the content of the last turn carrying a known agent `source` (assistant
or user alike) when that content is non-empty text, and the fixed
"no proper response" fallback when no such turn exists or its text is
empty. -/
theorem c6_coordinator_append (errText : String) (st : Store) (resp : AgentResponse) :
    ∃ msg : Message,
      storeLookup (handleAgentResponse errText st resp) resp.session_id
          = some ((storeLookup st resp.session_id).getD [] ++ [msg])
      ∧ msg.role = "assistant"
      ∧ (∀ sid', sid' ≠ resp.session_id →
          storeLookup (handleAgentResponse errText st resp) sid'
            = storeLookup st sid')
      ∧ (∀ s, findFinalResponse resp.context = ChatContent.text s → s ≠ "" →
          msg.content = s)
      ∧ (findFinalResponse resp.context = ChatContent.text "" →
          msg.content = noProperResponse) := by
  refine ⟨⟨"assistant", coordReply errText resp.context⟩, ?_, rfl, ?_, ?_, ?_⟩
  · rw [handleAgentResponse_eq]
    exact storeAppend_self st resp.session_id _
  · intro sid' h
    rw [handleAgentResponse_eq]
    exact storeAppend_other st resp.session_id sid' _ h
  · intro s hfr hs
    show coordReply errText resp.context = s
    unfold coordReply
    rw [hfr]
    simp [hs]
  · intro hfr
    show coordReply errText resp.context = noProperResponse
    unfold coordReply
    rw [hfr]
    simp

def c6respW : AgentResponse :=
  ⟨"ResearcherAgent", [LLMMessage.assistant (ChatContent.text "hello") "ResearcherAgent"], "s"⟩

/-- Witness for the amended C6 at a concrete response. -/
theorem c6_coordinator_append_witness :
    ∃ msg : Message,
      storeLookup (handleAgentResponse "e" [] c6respW) "s" = some [msg] ∧
        msg.content = "hello" := by
  obtain ⟨msg, h1, _, _, h4, _⟩ := c6_coordinator_append "e" [] c6respW
  exact ⟨msg, by simpa using h1, h4 "hello" (by decide) (by decide)⟩

/-- C10: the coordinator's handler is total (never propagates an
exception) and always appends exactly one assistant message to the
entry of the response's session, leaving it non-empty and all other
sessions untouched; when extracting/storing fails internally (a
pending-tool-call list as content makes the pydantic Message
constructor raise), the error-text message is appended instead. -/
theorem c10_coordinator_total (errText : String) (st : Store) (resp : AgentResponse) :
    ∃ msg : Message,
      storeLookup (handleAgentResponse errText st resp) resp.session_id
          = some ((storeLookup st resp.session_id).getD [] ++ [msg])
      ∧ storeLookup (handleAgentResponse errText st resp) resp.session_id ≠ some []
      ∧ (∀ sid', sid' ≠ resp.session_id →
          storeLookup (handleAgentResponse errText st resp) sid'
            = storeLookup st sid')
      ∧ (∀ cs, findFinalResponse resp.context = ChatContent.calls cs → cs ≠ [] →
          msg.content = coordErrorLead ++ errText) := by
  refine ⟨⟨"assistant", coordReply errText resp.context⟩, ?_, ?_, ?_, ?_⟩
  · rw [handleAgentResponse_eq]
    exact storeAppend_self st resp.session_id _
  · rw [handleAgentResponse_eq, storeAppend_self]
    simp
  · intro sid' h
    rw [handleAgentResponse_eq]
    exact storeAppend_other st resp.session_id sid' _ h
  · intro cs hfr hc
    show coordReply errText resp.context = coordErrorLead ++ errText
    unfold coordReply
    rw [hfr]
    simp [hc]

def c10resp : AgentResponse :=
  ⟨"ResearcherAgent",
   [LLMMessage.assistant (ChatContent.calls [⟨"i", "web_search", "q"⟩]) "ResearcherAgent"],
   "s"⟩

/-- Witness for C10 at a concrete response whose extracted content is a
pending-tool-call list, exercising the internal-failure path. -/
theorem c10_coordinator_total_witness :
    ∃ msg : Message,
      storeLookup (handleAgentResponse "boom" [] c10resp) "s" = some [msg] ∧
        msg.content = coordErrorLead ++ "boom" := by
  obtain ⟨msg, h1, _, _, h4⟩ := c10_coordinator_total "boom" [] c10resp
  exact ⟨msg, by simpa using h1, h4 [⟨"i", "web_search", "q"⟩] (by decide) (by decide)⟩
